import Mathlib

/-!
Shallow embedding of the voice-call signaling server (config/socket.ts of
PI-3-MINIPROJECT-BACK-CALL) and proofs about its room registry and relay logic.

JavaScript `Map` objects (insertion-ordered, keyed by strings) are modelled as
association lists `List (String × α)` with JS `Map` semantics: `get` returns the
binding of the key, `set` overwrites an existing binding in place or appends a new
one, `delete` removes the binding, `size` is the list length.  Falsy-string checks
(`!meetingId` and friends) are modelled as equality with the empty string, and the
opaque `signal` object is modelled as a string where the empty string stands for a
missing (falsy) payload.  Timestamps (`new Date().toISOString()`) are passed in
explicitly as a `now : String` argument.  Outbound `emit` calls are collected in a
list of addressed events; `io.to(x)` with a socket identifier resolves to that
socket's private room, i.e. to exactly that socket.
-/

namespace CallServer

/-- JS `Map.get` on an insertion-ordered association list: first binding wins. -/
def mapGet : List (String × α) → String → Option α
  | [], _ => none
  | (k1, v) :: m, k => if k1 = k then some v else mapGet m k

/-- JS `Map.has`. -/
def mapHas (m : List (String × α)) (k : String) : Bool :=
  (mapGet m k).isSome

/-- JS `Map.set`: overwrite in place when the key is present, append otherwise. -/
def mapSet (m : List (String × α)) (k : String) (v : α) : List (String × α) :=
  if mapHas m k then m.map (fun p => if p.1 = k then (k, v) else p)
  else m ++ [(k, v)]

/-- JS `Map.delete`. -/
def mapDelete : List (String × α) → String → List (String × α)
  | [], _ => []
  | (k1, v) :: m, k => if k1 = k then mapDelete m k else (k1, v) :: mapDelete m k

/-- A participant record, as stored in a call room (interface CallParticipant). -/
structure CallParticipant where
  socketId : String
  userId : String
  meetingId : String
  peerId : String
  username : String
  isMuted : Bool
  isVideoOn : Bool
  joinedAt : String
deriving DecidableEq, Repr

/-- Value stored in the socket-to-user reverse index. -/
structure SocketUser where
  meetingId : String
  userId : String
deriving DecidableEq, Repr

/-- A call room: participants keyed by userId (Map of userId to CallParticipant). -/
abbrev Room := List (String × CallParticipant)

/-- The server's mutable state: the `callRooms` map, the `socketToUser` reverse
index, and the Socket.IO room membership created by `socket.join` and
`socket.leave` (pairs of socket identifier and room name). -/
structure ServerState where
  callRooms : List (String × Room)
  socketToUser : List (String × SocketUser)
  socketRooms : List (String × String)
deriving DecidableEq, Repr

/-- The state at module load: both maps empty, no socket in any room. -/
def ServerState.initial : ServerState := ⟨[], [], []⟩

/-- One element of the participants array sent in the PEERS_LIST response. -/
structure PeerInfo where
  userId : String
  peerId : String
  username : String
  isMuted : Bool
  isVideoOn : Bool
  joinedAt : String
deriving DecidableEq, Repr

/-- Payload of an emitted event, one constructor per distinct emission shape. -/
inductive EmittedEvent where
  | errorEvt (message code : String)
  | peersList (meetingId : String) (participants : List PeerInfo) (count : Nat)
  | peerJoined (userId peerId username timestamp : String)
  | signalEvt (meetingId : String) (fromUserId : Option String) (toUserId : String)
      (fromPeerId : Option String) (toPeerId signal signalType : String)
  | muteStatus (userId username : String) (isMuted : Bool) (timestamp : String)
  | videoStatus (userId username : String) (isVideoOn : Bool) (timestamp : String)
  | peerLeft (userId peerId username timestamp : String)
deriving DecidableEq, Repr

/-- Where an event is emitted: `socket.emit` (the connection itself),
`socket.to(room)` (room members except the sender), `io.to(room)` (all room
members), or `io.to(socketId)` (that socket's private room, i.e. that socket). -/
inductive Address where
  | selfSock (socketId : String)
  | roomExceptSelf (room socketId : String)
  | wholeRoom (room : String)
  | directSocket (socketId : String)
deriving DecidableEq, Repr

/-- An addressed outbound emission. -/
abbrev Emit := Address × EmittedEvent

/-- Payload of the JOIN event. -/
structure JoinCallPayload where
  meetingId : String
  userId : String
  peerId : String
  username : String
deriving DecidableEq, Repr

/-- Payload of the LEAVE event. -/
structure LeaveCallPayload where
  meetingId : String
  userId : String
deriving DecidableEq, Repr

/-- Payload of the SIGNAL event.  The handler reads `meetingId`, `toUserId`,
`toPeerId`, `signal` and `signalType`; the `fromUserId` and `fromPeerId` fields
of the inbound payload are never read by the handler. -/
structure SignalPayload where
  meetingId : String
  fromUserId : String
  toUserId : String
  fromPeerId : String
  toPeerId : String
  signal : String
  signalType : String
deriving DecidableEq, Repr

/-- Payload of the MUTE, UNMUTE, VIDEO_ON and VIDEO_OFF events. -/
structure MutePayload where
  meetingId : String
  userId : String
deriving DecidableEq, Repr

/-- socket.join: add the socket to a Socket.IO room (idempotent). -/
def socketJoinRoom (sr : List (String × String)) (sid room : String) :
    List (String × String) :=
  if sr.contains (sid, room) then sr else sr ++ [(sid, room)]

/-- socket.leave: remove the socket from a Socket.IO room. -/
def socketLeaveRoom (sr : List (String × String)) (sid room : String) :
    List (String × String) :=
  sr.filter (fun p => p != (sid, room))

/-- Default of the MAX_PARTICIPANTS environment configuration. -/
def MAX_PARTICIPANTS : Nat := 10

/-- Projection of a stored participant to the PEERS_LIST entry shape. -/
def toPeerInfo (p : CallParticipant) : PeerInfo :=
  ⟨p.userId, p.peerId, p.username, p.isMuted, p.isVideoOn, p.joinedAt⟩

/-- The ROOM_FULL error message built by the join handler. -/
def roomFullMessage (max : Nat) : String :=
  "Call is full (maximum " ++ toString max ++ " participants)"

/-- The fresh participant record built by the join handler for a new userId. -/
def newParticipant (now sid : String) (p : JoinCallPayload) : CallParticipant :=
  { socketId := sid, userId := p.userId, meetingId := p.meetingId, peerId := p.peerId,
    username := if p.username = "" then "Anonymous" else p.username,
    isMuted := true, isVideoOn := false, joinedAt := now }

/-- The JOIN handler (socket.on(CallEvents.JOIN)).  `max` is the configured
MAX_PARTICIPANTS value, `now` the current timestamp, `sid` the handling
socket's identifier. -/
def handleJoin (max : Nat) (now sid : String) (p : JoinCallPayload)
    (st : ServerState) : ServerState × List Emit :=
  if p.meetingId = "" ∨ p.userId = "" ∨ p.peerId = "" then
    (st, [(.selfSock sid,
           .errorEvt "Meeting ID, User ID, and Peer ID are required" "INVALID_PAYLOAD")])
  else
    let rooms1 := if mapHas st.callRooms p.meetingId then st.callRooms
                  else mapSet st.callRooms p.meetingId []
    let room := (mapGet st.callRooms p.meetingId).getD []
    if max ≤ room.length then
      ({ st with callRooms := rooms1 },
       [(.selfSock sid, .errorEvt (roomFullMessage max) "ROOM_FULL")])
    else
      let room2 :=
        match mapGet room p.userId with
        | some ex => mapSet room p.userId { ex with socketId := sid, peerId := p.peerId }
        | none => mapSet room p.userId (newParticipant now sid p)
      let others := ((room2.map Prod.snd).filter (fun q => q.userId != p.userId)).map toPeerInfo
      ({ callRooms := mapSet rooms1 p.meetingId room2,
         socketToUser := mapSet st.socketToUser sid ⟨p.meetingId, p.userId⟩,
         socketRooms := socketJoinRoom st.socketRooms sid p.meetingId },
       [(.selfSock sid, .peersList p.meetingId others others.length),
        (.roomExceptSelf p.meetingId sid,
         .peerJoined p.userId p.peerId
           (if p.username = "" then "Anonymous" else p.username) now)])

/-- The SIGNAL handler (socket.on(CallEvents.SIGNAL)). -/
def handleSignal (sid : String) (p : SignalPayload) (st : ServerState) :
    ServerState × List Emit :=
  if p.meetingId = "" ∨ p.toUserId = "" ∨ p.signal = "" then
    (st, [(.selfSock sid, .errorEvt "Invalid signal payload" "INVALID_SIGNAL")])
  else
    match mapGet st.callRooms p.meetingId with
    | none => (st, [(.selfSock sid, .errorEvt "Call room not found" "ROOM_NOT_FOUND")])
    | some room =>
      match mapGet room p.toUserId with
      | none => (st, [(.selfSock sid, .errorEvt "Target user not found in call" "USER_NOT_FOUND")])
      | some target =>
        let userInfo := mapGet st.socketToUser sid
        let sender := userInfo.bind (fun ui => mapGet room ui.userId)
        (st, [(.directSocket target.socketId,
               .signalEvt p.meetingId (userInfo.map SocketUser.userId) p.toUserId
                 (sender.map CallParticipant.peerId) p.toPeerId p.signal p.signalType)])

/-- The MUTE handler (socket.on(CallEvents.MUTE)). -/
def handleMute (now : String) (p : MutePayload) (st : ServerState) :
    ServerState × List Emit :=
  if p.meetingId = "" ∨ p.userId = "" then (st, [])
  else
    match mapGet st.callRooms p.meetingId with
    | none => (st, [])
    | some room =>
      match mapGet room p.userId with
      | none => (st, [])
      | some participant =>
        let rooms2 := mapSet st.callRooms p.meetingId
          (mapSet room p.userId { participant with isMuted := true })
        ({ st with callRooms := rooms2 },
         [(.wholeRoom p.meetingId, .muteStatus p.userId participant.username true now)])

/-- The UNMUTE handler (socket.on(CallEvents.UNMUTE)). -/
def handleUnmute (now : String) (p : MutePayload) (st : ServerState) :
    ServerState × List Emit :=
  if p.meetingId = "" ∨ p.userId = "" then (st, [])
  else
    match mapGet st.callRooms p.meetingId with
    | none => (st, [])
    | some room =>
      match mapGet room p.userId with
      | none => (st, [])
      | some participant =>
        let rooms2 := mapSet st.callRooms p.meetingId
          (mapSet room p.userId { participant with isMuted := false })
        ({ st with callRooms := rooms2 },
         [(.wholeRoom p.meetingId, .muteStatus p.userId participant.username false now)])

/-- Shared leave logic (function handleUserLeave): remove the participant,
drop the socket index entry, leave the Socket.IO room, broadcast PEER_LEFT,
and delete the room when it became empty. -/
def handleUserLeave (now sid meetingId userId : String) (st : ServerState) :
    ServerState × List Emit :=
  if meetingId = "" ∨ userId = "" then (st, [])
  else
    match mapGet st.callRooms meetingId with
    | none => (st, [])
    | some room =>
      match mapGet room userId with
      | none => (st, [])
      | some participant =>
        let room2 := mapDelete room userId
        let rooms2 := if room2.length = 0 then mapDelete st.callRooms meetingId
                      else mapSet st.callRooms meetingId room2
        ({ callRooms := rooms2,
           socketToUser := mapDelete st.socketToUser sid,
           socketRooms := socketLeaveRoom st.socketRooms sid meetingId },
         [(.wholeRoom meetingId,
           .peerLeft userId participant.peerId participant.username now)])

/-- The LEAVE handler (socket.on(CallEvents.LEAVE)): delegates to handleUserLeave. -/
def handleLeave (now sid : String) (p : LeaveCallPayload) (st : ServerState) :
    ServerState × List Emit :=
  handleUserLeave now sid p.meetingId p.userId st

/-- The DISCONNECT handler (socket.on(CallEvents.DISCONNECT)): resolve the
socket in the reverse index and, when found, perform the leave cleanup. -/
def handleDisconnect (now sid : String) (st : ServerState) :
    ServerState × List Emit :=
  match mapGet st.socketToUser sid with
  | some ui => handleUserLeave now sid ui.meetingId ui.userId st
  | none => (st, [])

/-- Sockets currently members of a Socket.IO room. -/
def socketsInRoom (st : ServerState) (room : String) : List String :=
  (st.socketRooms.filter (fun p => p.2 == room)).map Prod.fst

/-- Connections an addressed emission is delivered to, resolved against a state. -/
def recipients (st : ServerState) : Address → List String
  | .selfSock sid => [sid]
  | .roomExceptSelf room sid => (socketsInRoom st room).filter (fun s => s != sid)
  | .wholeRoom room => socketsInRoom st room
  | .directSocket sid => [sid]

/-- Whether an emission list contains an ERROR event with the given code. -/
def emitsErrorCode (es : List Emit) (code : String) : Bool :=
  es.any fun e =>
    match e.2 with
    | .errorEvt _ c => c == code
    | _ => false

/-- Membership-changing inbound events, for reasoning about event traces. -/
inductive Event where
  | join (now sid : String) (p : JoinCallPayload)
  | leave (now sid : String) (p : LeaveCallPayload)
  | disconnect (now sid : String)
deriving DecidableEq, Repr

/-- State transition of one inbound event (emissions discarded). -/
def step (max : Nat) (st : ServerState) : Event → ServerState
  | .join now sid p => (handleJoin max now sid p st).1
  | .leave now sid p => (handleLeave now sid p st).1
  | .disconnect now sid => (handleDisconnect now sid st).1

/-- State after a sequence of events, starting from the initial empty state. -/
def run (max : Nat) (es : List Event) : ServerState :=
  es.foldl (step max) ServerState.initial

/-- One socket-index entry is live: it names an existing participant whose
stored socket identifier is exactly this connection. -/
def indexEntryLive (st : ServerState) (sid : String) (ui : SocketUser) : Bool :=
  match mapGet st.callRooms ui.meetingId with
  | none => false
  | some room =>
    match mapGet room ui.userId with
    | none => false
    | some part => part.socketId == sid

/-- The connection-index consistency invariant of the specification: every
socketToUser entry refers to an existing participant holding that socket. -/
def socketIndexConsistent (st : ServerState) : Bool :=
  st.socketToUser.all fun e => indexEntryLive st e.1 e.2

/-- An event for `(meetingId, userId)` arriving on connection `sid` is issued on
the participant's own current connection (vacuously true when no such
participant exists). -/
def sameConnection (st : ServerState) (sid m u : String) : Bool :=
  match mapGet st.callRooms m with
  | none => true
  | some room =>
    match mapGet room u with
    | none => true
    | some part => part.socketId == sid

/-- Discipline under which the connection-index invariant is preserved: joins
and explicit leaves touching an existing participant come from that
participant's current connection. -/
def eventOk (st : ServerState) : Event → Bool
  | .join _ sid p => sameConnection st sid p.meetingId p.userId
  | .leave _ sid p => sameConnection st sid p.meetingId p.userId
  | .disconnect _ _ => true

/-- All events of a trace obey `eventOk` in the state they are applied to. -/
def traceOk (max : Nat) (st : ServerState) : List Event → Prop
  | [] => True
  | e :: es => eventOk st e = true ∧ traceOk max (step max st e) es

/-- Append a user to the active set when absent (mirrors the new-join branch). -/
def insertNew (s : List String) (u : String) : List String :=
  if u ∈ s then s else s ++ [u]

/-- Remove every occurrence of a user from the active set (mirrors Map.delete). -/
def removeUser : List String → String → List String
  | [], _ => []
  | x :: s, u => if x = u then removeUser s u else x :: removeUser s u

/-- Trace-level active-membership bookkeeping for a single room: which distinct
userIds have successfully joined and not since left. -/
def activeStep (max : Nat) (s : List String) : Event → List String
  | .join _ _ p =>
      if p.meetingId = "" ∨ p.userId = "" ∨ p.peerId = "" then s
      else if max ≤ s.length then s
      else insertNew s p.userId
  | .leave _ _ p =>
      if p.meetingId = "" ∨ p.userId = "" then s
      else removeUser s p.userId
  | .disconnect _ _ => s

/-- Active userIds of one room after a trace of join/leave events. -/
def activeUsers (max : Nat) (es : List Event) : List String :=
  es.foldl (activeStep max) []

/-- The event is a join or leave event addressed to room `m`. -/
def onRoomJL (m : String) : Event → Bool
  | .join _ _ p => p.meetingId == m
  | .leave _ _ p => p.meetingId == m
  | .disconnect _ _ => false

/-- The userIds present in room `m` of a state, in insertion order. -/
def roomUsers (st : ServerState) (m : String) : List String :=
  ((mapGet st.callRooms m).getD []).map Prod.fst

/-- Participant lookup through both map levels. -/
def participantLookup (st : ServerState) (m u : String) : Option CallParticipant :=
  (mapGet st.callRooms m).bind fun room => mapGet room u

/-- Invariant tying the registry content for one room to the trace-level
active-user bookkeeping. -/
def C4Inv (st : ServerState) (m : String) (A : List String) : Prop :=
  A.Nodup ∧ ((A = [] ∧ mapGet st.callRooms m = none)
    ∨ (A ≠ [] ∧ ∃ room, mapGet st.callRooms m = some room ∧ room.map Prod.fst = A))

/-- Concrete fixtures used by counterexamples and witnesses. -/
def fullRoomTrace : List Event :=
  [ .join "t0" "S0" ⟨"room1", "u0", "p0", "n0"⟩,
    .join "t0" "S1" ⟨"room1", "u1", "p1", "n1"⟩,
    .join "t0" "S2" ⟨"room1", "u2", "p2", "n2"⟩,
    .join "t0" "S3" ⟨"room1", "u3", "p3", "n3"⟩,
    .join "t0" "S4" ⟨"room1", "u4", "p4", "n4"⟩,
    .join "t0" "S5" ⟨"room1", "u5", "p5", "n5"⟩,
    .join "t0" "S6" ⟨"room1", "u6", "p6", "n6"⟩,
    .join "t0" "S7" ⟨"room1", "u7", "p7", "n7"⟩,
    .join "t0" "S8" ⟨"room1", "u8", "p8", "n8"⟩,
    .join "t0" "S9" ⟨"room1", "u9", "p9", "n9"⟩ ]

def fullRoomState : ServerState := run 10 fullRoomTrace

def wPart : CallParticipant := ⟨"S1", "u", "m", "p1", "Ann", true, false, "t0"⟩

def wRoom : Room := [("u", wPart)]

def wState : ServerState := ⟨[("m", wRoom)], [("S1", ⟨"m", "u"⟩)], [("S1", "m")]⟩

def sigTarget : CallParticipant := ⟨"SB", "bob", "m", "pb", "Bob", true, false, "t0"⟩

def sigRoomState : ServerState := ⟨[("m", [("bob", sigTarget)])], [], [("SB", "m")]⟩

def c6Sender : CallParticipant := ⟨"SA", "ann", "m", "pa", "Ann", true, false, "t0"⟩

def c6Room : Room := [("bob", sigTarget), ("ann", c6Sender)]

def c6State : ServerState :=
  ⟨[("m", c6Room)], [("SA", ⟨"m", "ann"⟩)], [("SA", "m"), ("SB", "m")]⟩

section MapLemmas

variable {α : Type}

theorem setFun_pos (k : String) (v : α) (p : String × α) (h : p.1 = k) :
    (if p.1 = k then (k, v) else p) = (k, v) := if_pos h

theorem setFun_neg (k : String) (v : α) (p : String × α) (h : p.1 ≠ k) :
    (if p.1 = k then (k, v) else p) = p := if_neg h

theorem mapGet_cons (k1 k : String) (v : α) (m : List (String × α)) :
    mapGet ((k1, v) :: m) k = if k1 = k then some v else mapGet m k := rfl

theorem mapGet_setLoop_ne (m : List (String × α)) (k k2 : String) (v : α) (h : k ≠ k2) :
    mapGet (m.map fun p => if p.1 = k then (k, v) else p) k2 = mapGet m k2 := by
  induction m with
  | nil => rfl
  | cons e m ih =>
    obtain ⟨k1, v1⟩ := e
    by_cases hk : k1 = k
    · subst hk
      rw [List.map_cons, setFun_pos _ _ _ rfl, mapGet_cons, mapGet_cons, if_neg h, ih,
        if_neg h]
    · rw [List.map_cons, setFun_neg _ _ _ hk, mapGet_cons, mapGet_cons, ih]

theorem mapGet_setLoop_self (m : List (String × α)) (k : String) (v : α)
    (h : mapHas m k = true) :
    mapGet (m.map fun p => if p.1 = k then (k, v) else p) k = some v := by
  induction m with
  | nil => simp [mapHas, mapGet] at h
  | cons e m ih =>
    obtain ⟨k1, v1⟩ := e
    by_cases hk : k1 = k
    · subst hk
      rw [List.map_cons, setFun_pos _ _ _ rfl, mapGet_cons, if_pos rfl]
    · have h2 : mapHas m k = true := by simpa [mapHas, mapGet, hk] using h
      rw [List.map_cons, setFun_neg _ _ _ hk, mapGet_cons, if_neg hk, ih h2]

theorem mapGet_append_single (m : List (String × α)) (k k2 : String) (v : α)
    (h : mapHas m k = false) :
    mapGet (m ++ [(k, v)]) k2 = if k = k2 then some v else mapGet m k2 := by
  induction m with
  | nil => simp [mapGet]
  | cons e m ih =>
    obtain ⟨k1, v1⟩ := e
    have hk1 : k1 ≠ k := by
      intro hq; subst hq; simp [mapHas, mapGet] at h
    have h2 : mapHas m k = false := by simpa [mapHas, mapGet, hk1] using h
    by_cases hk12 : k1 = k2
    · subst hk12; simp [mapGet, Ne.symm hk1]
    · simp [mapGet, hk12, ih h2]

theorem mapGet_mapSet (m : List (String × α)) (k k2 : String) (v : α) :
    mapGet (mapSet m k v) k2 = if k = k2 then some v else mapGet m k2 := by
  unfold mapSet
  cases hhas : mapHas m k with
  | true =>
    simp only [if_true]
    by_cases hk : k = k2
    · subst hk; simp [mapGet_setLoop_self m k v hhas]
    · simp [mapGet_setLoop_ne m k k2 v hk, hk]
  | false =>
    simp only [Bool.false_eq_true, if_false]
    exact mapGet_append_single m k k2 v hhas

theorem mapGet_mapDelete (m : List (String × α)) (k k2 : String) :
    mapGet (mapDelete m k) k2 = if k = k2 then none else mapGet m k2 := by
  induction m with
  | nil => simp [mapDelete, mapGet]
  | cons e m ih =>
    obtain ⟨k1, v1⟩ := e
    by_cases hk : k1 = k
    · subst hk
      by_cases hk2 : k1 = k2
      · subst hk2; simpa [mapDelete, mapGet] using ih
      · simpa [mapDelete, mapGet, hk2] using ih
    · by_cases hk2 : k1 = k2
      · subst hk2
        have : ¬ k = k1 := fun he => hk he.symm
        simp [mapDelete, mapGet, hk, this]
      · simp [mapDelete, mapGet, hk, hk2, ih]

theorem mapGet_mem {m : List (String × α)} {k : String} {v : α}
    (h : mapGet m k = some v) : (k, v) ∈ m := by
  induction m with
  | nil => simp [mapGet] at h
  | cons e m ih =>
    obtain ⟨k1, v1⟩ := e
    by_cases hk : k1 = k
    · subst hk
      simp [mapGet] at h
      subst h
      exact List.mem_cons_self _ _
    · simp [mapGet, hk] at h
      exact List.mem_cons_of_mem _ (ih h)

theorem mapHas_false_forall {m : List (String × α)} {k : String}
    (h : mapHas m k = false) : ∀ e ∈ m, e.1 ≠ k := by
  intro e he
  induction m with
  | nil => simp at he
  | cons e1 m ih =>
    obtain ⟨k1, v1⟩ := e1
    have hk1 : k1 ≠ k := by
      intro hq; subst hq; simp [mapHas, mapGet] at h
    have h2 : mapHas m k = false := by simpa [mapHas, mapGet, hk1] using h
    rcases List.mem_cons.mp he with he1 | he2
    · subst he1; exact hk1
    · exact ih h2 he2

theorem mem_mapSet {m : List (String × α)} {k : String} {v : α} {e : String × α}
    (h : e ∈ mapSet m k v) : e = (k, v) ∨ (e ∈ m ∧ e.1 ≠ k) := by
  unfold mapSet at h
  cases hhas : mapHas m k with
  | true =>
    rw [hhas, if_pos rfl] at h
    rcases List.mem_map.mp h with ⟨p, hp, hfp⟩
    by_cases hk : p.1 = k
    · left; rw [← hfp, setFun_pos _ _ _ hk]
    · right
      rw [← hfp, setFun_neg _ _ _ hk]
      exact ⟨hp, hk⟩
  | false =>
    rw [hhas] at h
    simp only [Bool.false_eq_true, if_false] at h
    rcases List.mem_append.mp h with h1 | h2
    · right; exact ⟨h1, mapHas_false_forall hhas e h1⟩
    · left; simpa using h2

theorem mem_mapDelete {m : List (String × α)} {k : String} {e : String × α}
    (h : e ∈ mapDelete m k) : e ∈ m ∧ e.1 ≠ k := by
  induction m with
  | nil => simp [mapDelete] at h
  | cons e1 m ih =>
    obtain ⟨k1, v1⟩ := e1
    by_cases hk : k1 = k
    · subst hk
      simp [mapDelete] at h
      have := ih h
      exact ⟨List.mem_cons_of_mem _ this.1, this.2⟩
    · simp [mapDelete, hk] at h
      rcases h with h1 | h2
      · subst h1; exact ⟨List.mem_cons_self _ _, hk⟩
      · have := ih h2
        exact ⟨List.mem_cons_of_mem _ this.1, this.2⟩

theorem keys_setLoop (m : List (String × α)) (k : String) (v : α) :
    ((m.map fun p => if p.1 = k then (k, v) else p).map Prod.fst) = m.map Prod.fst := by
  induction m with
  | nil => rfl
  | cons e m ih =>
    obtain ⟨k1, v1⟩ := e
    by_cases hk : k1 = k
    · subst hk
      rw [List.map_cons, setFun_pos _ _ _ rfl, List.map_cons, List.map_cons, ih]
    · rw [List.map_cons, setFun_neg _ _ _ hk, List.map_cons, List.map_cons, ih]

theorem keys_mapSet_of_has {m : List (String × α)} {k : String} (v : α)
    (h : mapHas m k = true) :
    (mapSet m k v).map Prod.fst = m.map Prod.fst := by
  unfold mapSet
  rw [h, if_pos rfl]
  exact keys_setLoop m k v

theorem keys_mapSet_of_not_has {m : List (String × α)} {k : String} (v : α)
    (h : mapHas m k = false) :
    (mapSet m k v).map Prod.fst = m.map Prod.fst ++ [k] := by
  unfold mapSet
  rw [h]
  simp

theorem keys_mapDelete (m : List (String × α)) (k : String) :
    (mapDelete m k).map Prod.fst = removeUser (m.map Prod.fst) k := by
  induction m with
  | nil => rfl
  | cons e m ih =>
    obtain ⟨k1, v1⟩ := e
    by_cases hk : k1 = k
    · subst hk; simp [mapDelete, removeUser, ih]
    · simp [mapDelete, removeUser, hk, ih]

theorem mapHas_iff_mem_keys {m : List (String × α)} {k : String} :
    mapHas m k = true ↔ k ∈ m.map Prod.fst := by
  induction m with
  | nil => simp [mapHas, mapGet]
  | cons e m ih =>
    obtain ⟨k1, v1⟩ := e
    by_cases hk : k1 = k
    · subst hk; simp [mapHas, mapGet]
    · simp [mapHas, mapGet, hk, Ne.symm hk] at ih ⊢
      exact ih

theorem length_mapSet_of_has {m : List (String × α)} {k : String} (v : α)
    (h : mapHas m k = true) : (mapSet m k v).length = m.length := by
  unfold mapSet
  rw [h, if_pos rfl, List.length_map]

theorem mapGet_some_ne_nil {m : List (String × α)} {k : String} {v : α}
    (h : mapGet m k = some v) : m ≠ [] := by
  intro he; subst he; simp [mapGet] at h

theorem mem_removeUser {s : List String} {u x : String} :
    x ∈ removeUser s u ↔ x ∈ s ∧ x ≠ u := by
  induction s with
  | nil => simp [removeUser]
  | cons y s ih =>
    by_cases hy : y = u
    · subst hy
      rw [removeUser, if_pos rfl, ih]
      constructor
      · rintro ⟨h1, h2⟩; exact ⟨List.mem_cons_of_mem _ h1, h2⟩
      · rintro ⟨h1, h2⟩
        rcases List.mem_cons.mp h1 with h3 | h3
        · exact absurd h3 h2
        · exact ⟨h3, h2⟩
    · rw [removeUser, if_neg hy]
      constructor
      · intro h
        rcases List.mem_cons.mp h with h1 | h1
        · subst h1; exact ⟨List.mem_cons_self _ _, hy⟩
        · rcases ih.mp h1 with ⟨h2, h3⟩; exact ⟨List.mem_cons_of_mem _ h2, h3⟩
      · rintro ⟨h1, h2⟩
        rcases List.mem_cons.mp h1 with h3 | h3
        · subst h3; exact List.mem_cons_self _ _
        · exact List.mem_cons_of_mem _ (ih.mpr ⟨h3, h2⟩)

theorem removeUser_nodup {s : List String} (u : String) (h : s.Nodup) :
    (removeUser s u).Nodup := by
  induction s with
  | nil => simp [removeUser]
  | cons y s ih =>
    rcases List.nodup_cons.mp h with ⟨hy, hs⟩
    by_cases hyu : y = u
    · subst hyu; simpa [removeUser] using ih hs
    · rw [removeUser, if_neg hyu]
      refine List.nodup_cons.mpr ⟨?_, ih hs⟩
      intro hmem
      exact hy (mem_removeUser.mp hmem).1

theorem removeUser_eq_nil_iff {s : List String} {u : String} :
    removeUser s u = [] ↔ ∀ x ∈ s, x = u := by
  induction s with
  | nil => simp [removeUser]
  | cons y s ih =>
    by_cases hy : y = u
    · subst hy; simp [removeUser, ih]
    · simp [removeUser, hy]

theorem step_join (max : Nat) (st : ServerState) (now sid : String) (p : JoinCallPayload) :
    step max st (.join now sid p) = (handleJoin max now sid p st).1 := rfl

theorem step_leave (max : Nat) (st : ServerState) (now sid : String) (p : LeaveCallPayload) :
    step max st (.leave now sid p) = (handleUserLeave now sid p.meetingId p.userId st).1 := rfl

theorem activeStep_join (max : Nat) (s : List String) (now sid : String) (p : JoinCallPayload) :
    activeStep max s (.join now sid p) =
      if p.meetingId = "" ∨ p.userId = "" ∨ p.peerId = "" then s
      else if max ≤ s.length then s
      else insertNew s p.userId := rfl

theorem activeStep_leave (max : Nat) (s : List String) (now sid : String) (p : LeaveCallPayload) :
    activeStep max s (.leave now sid p) =
      if p.meetingId = "" ∨ p.userId = "" then s else removeUser s p.userId := rfl

theorem removeUser_not_mem {s : List String} {u : String} (h : u ∉ s) :
    removeUser s u = s := by
  induction s with
  | nil => rfl
  | cons y s ih =>
    have hy : y ≠ u := fun he => h (he ▸ List.mem_cons_self _ _)
    rw [removeUser, if_neg hy, ih (fun hmem => h (List.mem_cons_of_mem _ hmem))]

theorem mapHas_false_none {α : Type} {m : List (String × α)} {k : String}
    (h : mapHas m k = false) : mapGet m k = none := by
  cases hq : mapGet m k with
  | none => rfl
  | some v => rw [mapHas, hq] at h; exact absurd h (by simp)

theorem mapSet_nil {α : Type} (k : String) (v : α) : mapSet [] k v = [(k, v)] := rfl

theorem socketIndexConsistent_iff {st : ServerState} :
    socketIndexConsistent st = true ↔
      ∀ e ∈ st.socketToUser, indexEntryLive st e.1 e.2 = true :=
  List.all_eq_true

theorem indexEntryLive_intro {st : ServerState} {s : String} {ui : SocketUser}
    {room : Room} {part : CallParticipant}
    (h1 : mapGet st.callRooms ui.meetingId = some room)
    (h2 : mapGet room ui.userId = some part)
    (h3 : part.socketId = s) : indexEntryLive st s ui = true := by
  unfold indexEntryLive
  simp only [h1, h2]
  exact beq_iff_eq.mpr h3

theorem indexEntryLive_elim {st : ServerState} {s : String} {ui : SocketUser}
    (h : indexEntryLive st s ui = true) :
    ∃ room part, mapGet st.callRooms ui.meetingId = some room
      ∧ mapGet room ui.userId = some part ∧ part.socketId = s := by
  unfold indexEntryLive at h
  cases h1 : mapGet st.callRooms ui.meetingId with
  | none =>
    simp only [h1] at h
    exact absurd h (by simp)
  | some room =>
    simp only [h1] at h
    cases h2 : mapGet room ui.userId with
    | none =>
      simp only [h2] at h
      exact absurd h (by simp)
    | some part =>
      simp only [h2] at h
      exact ⟨room, part, rfl, h2, eq_of_beq h⟩

theorem sameConnection_elim {st : ServerState} {sid m u : String}
    {room : Room} {part : CallParticipant}
    (hroom : mapGet st.callRooms m = some room)
    (hpart : mapGet room u = some part)
    (h : sameConnection st sid m u = true) : part.socketId = sid := by
  unfold sameConnection at h
  simp only [hroom, hpart] at h
  exact eq_of_beq h

theorem handleJoin_full_noroom (max : Nat) (now sid : String) (p : JoinCallPayload)
    (st : ServerState)
    (hv : ¬ (p.meetingId = "" ∨ p.userId = "" ∨ p.peerId = ""))
    (hroom : mapGet st.callRooms p.meetingId = none)
    (hfull : max ≤ 0) :
    handleJoin max now sid p st =
      ({ st with callRooms := mapSet st.callRooms p.meetingId [] },
       [(.selfSock sid, .errorEvt (roomFullMessage max) "ROOM_FULL")]) := by
  have hhas : mapHas st.callRooms p.meetingId = false := by rw [mapHas, hroom]; rfl
  unfold handleJoin
  rw [if_neg hv]
  simp only [hhas, Bool.false_eq_true, if_false, hroom, Option.getD_none, List.length_nil]
  rw [if_pos hfull]

end MapLemmas

section HandlerLemmas

theorem handleJoin_invalid (max : Nat) (now sid : String) (p : JoinCallPayload)
    (st : ServerState) (h : p.meetingId = "" ∨ p.userId = "" ∨ p.peerId = "") :
    handleJoin max now sid p st =
      (st, [(.selfSock sid,
             .errorEvt "Meeting ID, User ID, and Peer ID are required" "INVALID_PAYLOAD")]) := by
  unfold handleJoin
  rw [if_pos h]

theorem handleJoin_full (max : Nat) (now sid : String) (p : JoinCallPayload)
    (st : ServerState) (room : Room)
    (hv : ¬ (p.meetingId = "" ∨ p.userId = "" ∨ p.peerId = ""))
    (hroom : mapGet st.callRooms p.meetingId = some room)
    (hfull : max ≤ room.length) :
    handleJoin max now sid p st =
      (st, [(.selfSock sid, .errorEvt (roomFullMessage max) "ROOM_FULL")]) := by
  have hhas : mapHas st.callRooms p.meetingId = true := by
    rw [mapHas, hroom]; rfl
  unfold handleJoin
  rw [if_neg hv]
  simp only [hhas, if_pos rfl, if_true, hroom, Option.getD_some, if_pos hfull]

theorem handleJoin_reconnect_state (max : Nat) (now sid : String) (p : JoinCallPayload)
    (st : ServerState) (room : Room) (ex : CallParticipant)
    (hv : ¬ (p.meetingId = "" ∨ p.userId = "" ∨ p.peerId = ""))
    (hroom : mapGet st.callRooms p.meetingId = some room)
    (hex : mapGet room p.userId = some ex)
    (hlt : room.length < max) :
    (handleJoin max now sid p st).1 =
      ⟨mapSet st.callRooms p.meetingId
          (mapSet room p.userId { ex with socketId := sid, peerId := p.peerId }),
        mapSet st.socketToUser sid ⟨p.meetingId, p.userId⟩,
        socketJoinRoom st.socketRooms sid p.meetingId⟩ := by
  have hhas : mapHas st.callRooms p.meetingId = true := by
    rw [mapHas, hroom]; rfl
  unfold handleJoin
  rw [if_neg hv]
  simp only [hhas, if_pos rfl, if_true, hroom, Option.getD_some, if_neg (not_le.mpr hlt), hex]

theorem handleJoin_new_state (max : Nat) (now sid : String) (p : JoinCallPayload)
    (st : ServerState) (room : Room)
    (hv : ¬ (p.meetingId = "" ∨ p.userId = "" ∨ p.peerId = ""))
    (hroom : mapGet st.callRooms p.meetingId = some room)
    (hnew : mapGet room p.userId = none)
    (hlt : room.length < max) :
    (handleJoin max now sid p st).1 =
      ⟨mapSet st.callRooms p.meetingId (mapSet room p.userId (newParticipant now sid p)),
        mapSet st.socketToUser sid ⟨p.meetingId, p.userId⟩,
        socketJoinRoom st.socketRooms sid p.meetingId⟩ := by
  have hhas : mapHas st.callRooms p.meetingId = true := by
    rw [mapHas, hroom]; rfl
  unfold handleJoin
  rw [if_neg hv]
  simp only [hhas, if_pos rfl, if_true, hroom, Option.getD_some, if_neg (not_le.mpr hlt), hnew]

theorem handleJoin_new_noroom_state (max : Nat) (now sid : String) (p : JoinCallPayload)
    (st : ServerState)
    (hv : ¬ (p.meetingId = "" ∨ p.userId = "" ∨ p.peerId = ""))
    (hroom : mapGet st.callRooms p.meetingId = none)
    (hpos : 0 < max) :
    (handleJoin max now sid p st).1 =
      ⟨mapSet (mapSet st.callRooms p.meetingId []) p.meetingId
          (mapSet [] p.userId (newParticipant now sid p)),
        mapSet st.socketToUser sid ⟨p.meetingId, p.userId⟩,
        socketJoinRoom st.socketRooms sid p.meetingId⟩ := by
  have hhas : mapHas st.callRooms p.meetingId = false := by
    rw [mapHas, hroom]; rfl
  unfold handleJoin
  rw [if_neg hv]
  simp only [hhas, Bool.false_eq_true, if_false, hroom, Option.getD_none,
    List.length_nil, if_neg (not_le.mpr hpos)]
  rfl

theorem handleUserLeave_invalid (now sid m u : String) (st : ServerState)
    (h : m = "" ∨ u = "") :
    handleUserLeave now sid m u st = (st, []) := by
  unfold handleUserLeave
  rw [if_pos h]

theorem handleUserLeave_noroom (now sid m u : String) (st : ServerState)
    (hv : ¬ (m = "" ∨ u = ""))
    (h : mapGet st.callRooms m = none) :
    handleUserLeave now sid m u st = (st, []) := by
  unfold handleUserLeave
  rw [if_neg hv]
  simp only [h]

theorem handleUserLeave_nouser (now sid m u : String) (st : ServerState) (room : Room)
    (hv : ¬ (m = "" ∨ u = ""))
    (hroom : mapGet st.callRooms m = some room)
    (h : mapGet room u = none) :
    handleUserLeave now sid m u st = (st, []) := by
  unfold handleUserLeave
  rw [if_neg hv]
  simp only [hroom, h]

theorem handleUserLeave_found (now sid m u : String) (st : ServerState) (room : Room)
    (participant : CallParticipant)
    (hv : ¬ (m = "" ∨ u = ""))
    (hroom : mapGet st.callRooms m = some room)
    (hpart : mapGet room u = some participant) :
    handleUserLeave now sid m u st =
      (⟨if (mapDelete room u).length = 0 then mapDelete st.callRooms m
          else mapSet st.callRooms m (mapDelete room u),
         mapDelete st.socketToUser sid,
         socketLeaveRoom st.socketRooms sid m⟩,
       [(.wholeRoom m, .peerLeft u participant.peerId participant.username now)]) := by
  unfold handleUserLeave
  rw [if_neg hv]
  simp only [hroom, hpart]

end HandlerLemmas


section ClaimTheorems

/-- C1: the claim says a member rejoining a full room always succeeds as a
reconnection.  In the code the capacity check runs before the membership
check, so a member rejoining a room already at MAX_PARTICIPANTS (10) gets
ROOM_FULL: with the room at 10 members and u0 one of them, u0's rejoin
fails. -/
theorem C1_counterexample :
    mapHas ((mapGet fullRoomState.callRooms "room1").getD []) "u0" = true
    ∧ (handleJoin 10 "t2" "S99" ⟨"room1", "u0", "pNew", "alice"⟩ fullRoomState).2
        = [(Address.selfSock "S99",
            EmittedEvent.errorEvt (roomFullMessage 10) "ROOM_FULL")] := by
  decide

/-- C1 (amended): capacity is checked before membership, so a join on a room
at or above the configured maximum fails with ROOM_FULL even for an existing
member; the reconnection path (update of socketId and peerId in place) applies
exactly when the current size is below the maximum. -/
theorem C1_main (max : Nat) (now sid : String) (p : JoinCallPayload)
    (st : ServerState) (room : Room) (ex : CallParticipant)
    (hm : p.meetingId ≠ "") (hu : p.userId ≠ "") (hp : p.peerId ≠ "")
    (hroom : mapGet st.callRooms p.meetingId = some room)
    (hex : mapGet room p.userId = some ex) :
    (max ≤ room.length →
      handleJoin max now sid p st =
        (st, [(Address.selfSock sid,
               EmittedEvent.errorEvt (roomFullMessage max) "ROOM_FULL")]))
    ∧ (room.length < max →
      (handleJoin max now sid p st).1.callRooms =
        mapSet st.callRooms p.meetingId
          (mapSet room p.userId { ex with socketId := sid, peerId := p.peerId })) := by
  have hv : ¬ (p.meetingId = "" ∨ p.userId = "" ∨ p.peerId = "") := by
    simp [hm, hu, hp]
  constructor
  · intro hfull
    exact handleJoin_full max now sid p st room hv hroom hfull
  · intro hlt
    rw [handleJoin_reconnect_state max now sid p st room ex hv hroom hex hlt]

theorem C1_witness :
    (1 ≤ wRoom.length →
      handleJoin 1 "t1" "S2" ⟨"m", "u", "p2", "Ann"⟩ wState =
        (wState, [(Address.selfSock "S2",
                   EmittedEvent.errorEvt (roomFullMessage 1) "ROOM_FULL")]))
    ∧ (wRoom.length < 1 →
      (handleJoin 1 "t1" "S2" ⟨"m", "u", "p2", "Ann"⟩ wState).1.callRooms =
        mapSet wState.callRooms "m"
          (mapSet wRoom "u" { wPart with socketId := "S2", peerId := "p2" })) :=
  C1_main 1 "t1" "S2" ⟨"m", "u", "p2", "Ann"⟩ wState wRoom wPart
    (by decide) (by decide) (by decide) rfl rfl

/-- C5: the claim asserts that every rejoin by an existing member updates the
stored socketId and peerId.  When the room is at capacity the join is rejected
before the reconnection branch, so nothing is updated: after u0 (stored peerId
p0, socketId S0) rejoins the full room with peerId pNew on socket S99, the
stored entry still carries p0 and S0. -/
theorem C5_counterexample :
    (participantLookup fullRoomState "room1" "u0").isSome = true
    ∧ ((participantLookup
          (handleJoin 10 "t2" "S99" ⟨"room1", "u0", "pNew", "alice"⟩ fullRoomState).1
          "room1" "u0").map CallParticipant.peerId = some "p0"
    ∧ (participantLookup
          (handleJoin 10 "t2" "S99" ⟨"room1", "u0", "pNew", "alice"⟩ fullRoomState).1
          "room1" "u0").map CallParticipant.socketId = some "S0") := by
  decide

/-- C5 (amended): for every join below capacity whose userId is already a
member, the room size is unchanged and the member's record is updated to
exactly the prior record with only socketId and peerId replaced (joinedAt,
isMuted, isVideoOn, username, userId, meetingId preserved). -/
theorem C5_main (max : Nat) (now sid : String) (p : JoinCallPayload)
    (st : ServerState) (room : Room) (ex : CallParticipant)
    (hm : p.meetingId ≠ "") (hu : p.userId ≠ "") (hp : p.peerId ≠ "")
    (hroom : mapGet st.callRooms p.meetingId = some room)
    (hex : mapGet room p.userId = some ex)
    (hlt : room.length < max) :
    ∃ room2,
      mapGet (handleJoin max now sid p st).1.callRooms p.meetingId = some room2
      ∧ room2.length = room.length
      ∧ mapGet room2 p.userId = some { ex with socketId := sid, peerId := p.peerId } := by
  have hv : ¬ (p.meetingId = "" ∨ p.userId = "" ∨ p.peerId = "") := by
    simp [hm, hu, hp]
  rw [handleJoin_reconnect_state max now sid p st room ex hv hroom hex hlt]
  refine ⟨mapSet room p.userId { ex with socketId := sid, peerId := p.peerId }, ?_, ?_, ?_⟩
  · rw [mapGet_mapSet, if_pos rfl]
  · exact length_mapSet_of_has _ (by rw [mapHas, hex]; rfl)
  · rw [mapGet_mapSet, if_pos rfl]

theorem C5_witness :
    ∃ room2,
      mapGet (handleJoin 2 "t1" "S2" ⟨"m", "u", "p2", "Ann"⟩ wState).1.callRooms "m"
        = some room2
      ∧ room2.length = wRoom.length
      ∧ mapGet room2 "u" = some { wPart with socketId := "S2", peerId := "p2" } :=
  C5_main 2 "t1" "S2" ⟨"m", "u", "p2", "Ann"⟩ wState wRoom wPart
    (by decide) (by decide) (by decide) rfl rfl (by decide)

theorem handleJoin_success_no_error (max : Nat) (now sid : String) (p : JoinCallPayload)
    (st : ServerState)
    (hv : ¬ (p.meetingId = "" ∨ p.userId = "" ∨ p.peerId = ""))
    (hlt : ¬ max ≤ ((mapGet st.callRooms p.meetingId).getD []).length)
    (code : String) :
    emitsErrorCode (handleJoin max now sid p st).2 code = false := by
  unfold handleJoin
  rw [if_neg hv]
  simp only [if_neg hlt]
  cases mapGet ((mapGet st.callRooms p.meetingId).getD []) p.userId with
  | none => simp [emitsErrorCode]
  | some ex => simp [emitsErrorCode]

/-- C10: assuming the configured maximum is at least 1, every failing join
(INVALID_PAYLOAD or ROOM_FULL) leaves the whole registry exactly as it was:
no participant, no connection-index entry, no room is touched. -/
theorem C10_main (max : Nat) (now sid : String) (p : JoinCallPayload)
    (st : ServerState) (hmax : 1 ≤ max)
    (hfail : emitsErrorCode (handleJoin max now sid p st).2 "INVALID_PAYLOAD" = true
           ∨ emitsErrorCode (handleJoin max now sid p st).2 "ROOM_FULL" = true) :
    (handleJoin max now sid p st).1 = st := by
  by_cases hval : p.meetingId = "" ∨ p.userId = "" ∨ p.peerId = ""
  · rw [handleJoin_invalid max now sid p st hval]
  · by_cases hfull : max ≤ ((mapGet st.callRooms p.meetingId).getD []).length
    · cases hro : mapGet st.callRooms p.meetingId with
      | none =>
        rw [hro] at hfull
        simp at hfull
        omega
      | some room =>
        rw [hro] at hfull
        simp only [Option.getD_some] at hfull
        rw [handleJoin_full max now sid p st room hval hro hfull]
    · rcases hfail with h1 | h1 <;>
        rw [handleJoin_success_no_error max now sid p st hval hfull] at h1 <;>
        exact absurd h1 (by simp)

theorem C10_witness :
    (handleJoin 10 "t1" "S9" ⟨"", "u", "p", ""⟩ wState).1 = wState :=
  C10_main 10 "t1" "S9" ⟨"", "u", "p", ""⟩ wState (by decide)
    (Or.inl (by decide))

/-- C3: the claim says a signal without fromUserId is rejected with
INVALID_SIGNAL.  The handler validates only meetingId, toUserId and the signal
payload: with fromUserId missing (empty in the payload, and the sending socket
absent from the reverse index) the signal is still forwarded to the target,
with an undefined fromUserId, and no error is emitted. -/
theorem C3_counterexample :
    handleSignal "SX" ⟨"m", "", "bob", "", "tpb", "offer-sdp", "offer"⟩ sigRoomState
      = (sigRoomState,
         [(Address.directSocket "SB",
           EmittedEvent.signalEvt "m" none "bob" none "tpb" "offer-sdp" "offer")]) := by
  decide

/-- C3 (amended): the SIGNAL handler fails with INVALID_SIGNAL exactly when
meetingId, toUserId or the signal payload is missing; fromUserId is never
validated (the forwarded fromUserId is resolved from the connection index and
may be absent). -/
theorem C3_main (sid : String) (p : SignalPayload) (st : ServerState) :
    emitsErrorCode (handleSignal sid p st).2 "INVALID_SIGNAL" = true
      ↔ (p.meetingId = "" ∨ p.toUserId = "" ∨ p.signal = "") := by
  by_cases h : p.meetingId = "" ∨ p.toUserId = "" ∨ p.signal = ""
  · unfold handleSignal
    rw [if_pos h]
    simp [emitsErrorCode, h]
  · unfold handleSignal
    rw [if_neg h]
    cases hro : mapGet st.callRooms p.meetingId with
    | none => simp [emitsErrorCode, h]
    | some room =>
      cases htu : mapGet room p.toUserId with
      | none => simp [emitsErrorCode, h, htu]
      | some target => simp [emitsErrorCode, h, htu]

/-- C6: a valid signal naming a member target is unicast: the handler leaves
the state untouched and emits exactly one event, addressed to the target's
current connection, carrying the opaque payload verbatim together with the
resolved sender identity and peer identifier; no other participant's
connection receives it. -/
theorem C6_main (sid : String) (p : SignalPayload) (st : ServerState)
    (room : Room) (target : CallParticipant) (senderUi : SocketUser)
    (senderPart : CallParticipant)
    (hm : p.meetingId ≠ "") (ht : p.toUserId ≠ "") (hs : p.signal ≠ "")
    (hroom : mapGet st.callRooms p.meetingId = some room)
    (htgt : mapGet room p.toUserId = some target)
    (hui : mapGet st.socketToUser sid = some senderUi)
    (hsp : mapGet room senderUi.userId = some senderPart)
    (hdistinct : ∀ q ∈ room.map Prod.snd, q.userId ≠ p.toUserId →
      q.socketId ≠ target.socketId) :
    handleSignal sid p st =
      (st, [(Address.directSocket target.socketId,
             EmittedEvent.signalEvt p.meetingId (some senderUi.userId) p.toUserId
               (some senderPart.peerId) p.toPeerId p.signal p.signalType)])
    ∧ recipients st (Address.directSocket target.socketId) = [target.socketId]
    ∧ (∀ q ∈ room.map Prod.snd, q.userId ≠ p.toUserId →
        q.socketId ∉ recipients st (Address.directSocket target.socketId)) := by
  have hv : ¬ (p.meetingId = "" ∨ p.toUserId = "" ∨ p.signal = "") := by
    simp [hm, ht, hs]
  refine ⟨?_, rfl, ?_⟩
  · unfold handleSignal
    rw [if_neg hv]
    simp only [hroom, htgt, hui, Option.bind, hsp]
    rfl
  · intro q hq hne
    simp only [recipients, List.mem_singleton]
    exact hdistinct q hq hne

theorem C6_witness :
    handleSignal "SA" ⟨"m", "ann", "bob", "pa", "pb", "offer-sdp", "offer"⟩ c6State =
      (c6State,
       [(Address.directSocket "SB",
         EmittedEvent.signalEvt "m" (some "ann") "bob" (some "pa") "pb" "offer-sdp" "offer")])
    ∧ recipients c6State (Address.directSocket "SB") = ["SB"]
    ∧ (∀ q ∈ c6Room.map Prod.snd, q.userId ≠ "bob" →
        q.socketId ∉ recipients c6State (Address.directSocket "SB")) :=
  C6_main "SA" ⟨"m", "ann", "bob", "pa", "pb", "offer-sdp", "offer"⟩ c6State
    c6Room sigTarget ⟨"m", "ann"⟩ c6Sender
    (by decide) (by decide) (by decide) rfl rfl rfl rfl (by decide)

/-- C7: a transport-level disconnect of the connection registered for a room
member performs exactly the leave cleanup for that (roomId, userId): the whole
result (new state and emissions) coincides with the explicit leave, the
participant and the index entry are gone, an emptied room is deleted, and the
same single peer-left broadcast is addressed to the room. -/
theorem C7_main (now sid m u : String) (st : ServerState) (room : Room)
    (part : CallParticipant)
    (hm : m ≠ "") (hu : u ≠ "")
    (hidx : mapGet st.socketToUser sid = some ⟨m, u⟩)
    (hroom : mapGet st.callRooms m = some room)
    (hpart : mapGet room u = some part) :
    handleDisconnect now sid st = handleLeave now sid ⟨m, u⟩ st
    ∧ mapGet (handleDisconnect now sid st).1.socketToUser sid = none
    ∧ participantLookup (handleDisconnect now sid st).1 m u = none
    ∧ ((mapDelete room u).length = 0 →
        mapGet (handleDisconnect now sid st).1.callRooms m = none)
    ∧ (handleDisconnect now sid st).2 =
        [(Address.wholeRoom m, EmittedEvent.peerLeft u part.peerId part.username now)] := by
  have hv : ¬ (m = "" ∨ u = "") := by simp [hm, hu]
  have heq : handleDisconnect now sid st = handleUserLeave now sid m u st := by
    unfold handleDisconnect
    rw [hidx]
  have hfound := handleUserLeave_found now sid m u st room part hv hroom hpart
  refine ⟨heq, ?_, ?_, ?_, ?_⟩
  · rw [heq, hfound]
    simp only
    rw [mapGet_mapDelete, if_pos rfl]
  · rw [heq, hfound]
    unfold participantLookup
    simp only
    by_cases hlen : (mapDelete room u).length = 0
    · rw [if_pos hlen, mapGet_mapDelete, if_pos rfl]
      rfl
    · rw [if_neg hlen, mapGet_mapSet, if_pos rfl]
      simp only [Option.bind]
      rw [mapGet_mapDelete, if_pos rfl]
  · intro hlen
    rw [heq, hfound]
    simp only
    rw [if_pos hlen, mapGet_mapDelete, if_pos rfl]
  · rw [heq, hfound]

theorem C7_witness :
    handleDisconnect "t1" "S1" wState = handleLeave "t1" "S1" ⟨"m", "u"⟩ wState
    ∧ mapGet (handleDisconnect "t1" "S1" wState).1.socketToUser "S1" = none
    ∧ participantLookup (handleDisconnect "t1" "S1" wState).1 "m" "u" = none
    ∧ ((mapDelete wRoom "u").length = 0 →
        mapGet (handleDisconnect "t1" "S1" wState).1.callRooms "m" = none)
    ∧ (handleDisconnect "t1" "S1" wState).2 =
        [(Address.wholeRoom "m",
          EmittedEvent.peerLeft "u" wPart.peerId wPart.username "t1")] :=
  C7_main "t1" "S1" "m" "u" wState wRoom wPart (by decide) (by decide) rfl rfl rfl

/-- C8: a leave for an existing member emits exactly one peer-left broadcast,
and a second leave for the same (roomId, userId) — from any connection — or a
disconnect of the original connection after the leave finds no membership,
changes nothing and emits nothing. -/
theorem C8_main (now1 now2 now3 sid sid2 m u : String) (st : ServerState)
    (room : Room) (part : CallParticipant)
    (hm : m ≠ "") (hu : u ≠ "")
    (hroom : mapGet st.callRooms m = some room)
    (hpart : mapGet room u = some part) :
    (handleLeave now1 sid ⟨m, u⟩ st).2 =
        [(Address.wholeRoom m, EmittedEvent.peerLeft u part.peerId part.username now1)]
    ∧ handleLeave now2 sid2 ⟨m, u⟩ (handleLeave now1 sid ⟨m, u⟩ st).1 =
        ((handleLeave now1 sid ⟨m, u⟩ st).1, [])
    ∧ handleDisconnect now3 sid (handleLeave now1 sid ⟨m, u⟩ st).1 =
        ((handleLeave now1 sid ⟨m, u⟩ st).1, []) := by
  have hv : ¬ (m = "" ∨ u = "") := by simp [hm, hu]
  have hfound := handleUserLeave_found now1 sid m u st room part hv hroom hpart
  have h1 : handleLeave now1 sid ⟨m, u⟩ st = handleUserLeave now1 sid m u st := rfl
  refine ⟨by rw [h1, hfound], ?_, ?_⟩
  · show handleUserLeave now2 sid2 m u _ = _
    rw [h1, hfound]
    simp only
    by_cases hlen : (mapDelete room u).length = 0
    · refine handleUserLeave_noroom now2 sid2 m u _ hv ?_
      simp only [if_pos hlen]
      rw [mapGet_mapDelete, if_pos rfl]
    · refine handleUserLeave_nouser now2 sid2 m u _ (mapDelete room u) hv ?_ ?_
      · simp only [if_neg hlen]
        rw [mapGet_mapSet, if_pos rfl]
      · rw [mapGet_mapDelete, if_pos rfl]
  · rw [h1, hfound]
    unfold handleDisconnect
    simp only
    rw [mapGet_mapDelete, if_pos rfl]

theorem C8_witness :
    (handleLeave "t1" "S1" ⟨"m", "u"⟩ wState).2 =
        [(Address.wholeRoom "m",
          EmittedEvent.peerLeft "u" wPart.peerId wPart.username "t1")]
    ∧ handleLeave "t2" "S7" ⟨"m", "u"⟩ (handleLeave "t1" "S1" ⟨"m", "u"⟩ wState).1 =
        ((handleLeave "t1" "S1" ⟨"m", "u"⟩ wState).1, [])
    ∧ handleDisconnect "t3" "S1" (handleLeave "t1" "S1" ⟨"m", "u"⟩ wState).1 =
        ((handleLeave "t1" "S1" ⟨"m", "u"⟩ wState).1, []) :=
  C8_main "t1" "t2" "t3" "S1" "S7" "m" "u" wState wRoom wPart
    (by decide) (by decide) rfl rfl

theorem mem_socketsInRoom {st : ServerState} {s m : String}
    (h : (s, m) ∈ st.socketRooms) : s ∈ socketsInRoom st m := by
  unfold socketsInRoom
  refine List.mem_map.mpr ⟨(s, m), ?_, rfl⟩
  refine List.mem_filter.mpr ⟨h, ?_⟩
  simp

/-- C9: a mute or unmute naming an existing participant sets isMuted to the
requested value (even when already in that state) and broadcasts a single
mute-status event carrying the new value to the whole room, an address whose
recipients include every socket joined to the room — the sender's included;
when the room or user does not exist the handler is a silent no-op. -/
theorem C9_main (now : String) (p : MutePayload) (st : ServerState)
    (hm : p.meetingId ≠ "") (hu : p.userId ≠ "") :
    (∀ room part, mapGet st.callRooms p.meetingId = some room →
      mapGet room p.userId = some part →
      handleMute now p st =
        ({ st with callRooms := mapSet st.callRooms p.meetingId (mapSet room p.userId { part with isMuted := true }) },
         [(Address.wholeRoom p.meetingId,
           EmittedEvent.muteStatus p.userId part.username true now)])
      ∧ handleUnmute now p st =
        ({ st with callRooms := mapSet st.callRooms p.meetingId (mapSet room p.userId { part with isMuted := false }) },
         [(Address.wholeRoom p.meetingId,
           EmittedEvent.muteStatus p.userId part.username false now)]))
    ∧ (participantLookup st p.meetingId p.userId = none →
        handleMute now p st = (st, []) ∧ handleUnmute now p st = (st, []))
    ∧ (∀ s, (s, p.meetingId) ∈ st.socketRooms →
        s ∈ recipients st (Address.wholeRoom p.meetingId)) := by
  have hv : ¬ (p.meetingId = "" ∨ p.userId = "") := by simp [hm, hu]
  refine ⟨?_, ?_, ?_⟩
  · intro room part hroom hpart
    constructor
    · unfold handleMute
      rw [if_neg hv]
      simp only [hroom, hpart]
    · unfold handleUnmute
      rw [if_neg hv]
      simp only [hroom, hpart]
  · intro hnone
    unfold participantLookup at hnone
    cases hro : mapGet st.callRooms p.meetingId with
    | none =>
      constructor
      · unfold handleMute; rw [if_neg hv]; simp only [hro]
      · unfold handleUnmute; rw [if_neg hv]; simp only [hro]
    | some room =>
      rw [hro] at hnone
      simp only [Option.bind] at hnone
      constructor
      · unfold handleMute; rw [if_neg hv]; simp only [hro, hnone]
      · unfold handleUnmute; rw [if_neg hv]; simp only [hro, hnone]
  · intro s hmem
    exact mem_socketsInRoom hmem

theorem C9_witness :
    handleMute "t1" ⟨"m", "u"⟩ wState =
      ({ wState with callRooms := mapSet wState.callRooms "m" (mapSet wRoom "u" { wPart with isMuted := true }) },
       [(Address.wholeRoom "m", EmittedEvent.muteStatus "u" wPart.username true "t1")]) :=
  ((C9_main "t1" ⟨"m", "u"⟩ wState (by decide) (by decide)).1 wRoom wPart rfl rfl).1

theorem C4_step (max : Nat) (m : String) (hm : m ≠ "") (hmax : 1 ≤ max)
    (e : Event) (he : onRoomJL m e = true)
    (st : ServerState) (A : List String) (hinv : C4Inv st m A) :
    C4Inv (step max st e) m (activeStep max A e) := by
  obtain ⟨hnd, hcase⟩ := hinv
  cases e with
  | disconnect now sid => exact absurd he (by simp [onRoomJL])
  | join now sid p =>
    have hpm : p.meetingId = m := eq_of_beq he
    subst hpm
    rw [step_join, activeStep_join]
    by_cases hval : p.meetingId = "" ∨ p.userId = "" ∨ p.peerId = ""
    · rw [handleJoin_invalid max now sid p st hval, if_pos hval]
      exact ⟨hnd, hcase⟩
    · rw [if_neg hval]
      rcases hcase with ⟨hA, hnone⟩ | ⟨hAne, room, hsome, hkeys⟩
      · subst hA
        have h0 : ¬ max ≤ ([] : List String).length := by simp; omega
        rw [if_neg h0, handleJoin_new_noroom_state max now sid p st hval hnone (by omega)]
        refine ⟨by simp [insertNew], Or.inr ⟨by simp [insertNew], ?_⟩⟩
        refine ⟨mapSet [] p.userId (newParticipant now sid p), ?_, ?_⟩
        · show mapGet (mapSet (mapSet st.callRooms p.meetingId []) p.meetingId _) p.meetingId = _
          rw [mapGet_mapSet, if_pos rfl]
        · rw [mapSet_nil]
          simp [insertNew]
      · have hlenA : room.length = A.length := by rw [← hkeys, List.length_map]
        by_cases hfull : max ≤ A.length
        · rw [if_pos hfull, handleJoin_full max now sid p st room hval hsome (by omega)]
          exact ⟨hnd, Or.inr ⟨hAne, room, hsome, hkeys⟩⟩
        · rw [if_neg hfull]
          by_cases hmem : p.userId ∈ A
          · have hhasu : mapHas room p.userId = true := mapHas_iff_mem_keys.mpr (by rw [hkeys]; exact hmem)
            rcases Option.isSome_iff_exists.mp hhasu with ⟨ex, hex⟩
            have hins : insertNew A p.userId = A := by rw [insertNew, if_pos hmem]
            rw [hins, handleJoin_reconnect_state max now sid p st room ex hval hsome hex (by omega)]
            refine ⟨hnd, Or.inr ⟨hAne,
              mapSet room p.userId { ex with socketId := sid, peerId := p.peerId }, ?_, ?_⟩⟩
            · show mapGet (mapSet st.callRooms p.meetingId _) p.meetingId = _
              rw [mapGet_mapSet, if_pos rfl]
            · rw [keys_mapSet_of_has _ hhasu, hkeys]
          · have hhasu : mapHas room p.userId = false := by
              cases hq : mapHas room p.userId with
              | false => rfl
              | true => exact absurd (by rw [← hkeys]; exact mapHas_iff_mem_keys.mp hq) hmem
            have hexn : mapGet room p.userId = none := mapHas_false_none hhasu
            have hins : insertNew A p.userId = A ++ [p.userId] := by rw [insertNew, if_neg hmem]
            rw [hins, handleJoin_new_state max now sid p st room hval hsome hexn (by omega)]
            refine ⟨?_, Or.inr ⟨by simp,
              mapSet room p.userId (newParticipant now sid p), ?_, ?_⟩⟩
            · simp [List.nodup_append, hnd, hmem]
            · show mapGet (mapSet st.callRooms p.meetingId _) p.meetingId = _
              rw [mapGet_mapSet, if_pos rfl]
            · rw [keys_mapSet_of_not_has _ hhasu, hkeys]
  | leave now sid p =>
    have hpm : p.meetingId = m := eq_of_beq he
    subst hpm
    rw [step_leave, activeStep_leave]
    by_cases hval : p.meetingId = "" ∨ p.userId = ""
    · rw [handleUserLeave_invalid now sid p.meetingId p.userId st hval, if_pos hval]
      exact ⟨hnd, hcase⟩
    · rw [if_neg hval]
      rcases hcase with ⟨hA, hnone⟩ | ⟨hAne, room, hsome, hkeys⟩
      · subst hA
        rw [handleUserLeave_noroom now sid p.meetingId p.userId st hval hnone]
        exact ⟨by simp [removeUser], Or.inl ⟨rfl, hnone⟩⟩
      · cases hex : mapGet room p.userId with
        | none =>
          rw [handleUserLeave_nouser now sid p.meetingId p.userId st room hval hsome hex]
          have hnm : p.userId ∉ A := by
            intro hmem
            have hq := mapHas_iff_mem_keys.mpr (by rw [hkeys]; exact hmem)
            rw [mapHas, hex] at hq
            exact absurd hq (by simp)
          rw [removeUser_not_mem hnm]
          exact ⟨hnd, Or.inr ⟨hAne, room, hsome, hkeys⟩⟩
        | some part =>
          rw [handleUserLeave_found now sid p.meetingId p.userId st room part hval hsome hex]
          have hkeys2 : (mapDelete room p.userId).map Prod.fst = removeUser A p.userId := by
            rw [keys_mapDelete, hkeys]
          refine ⟨removeUser_nodup _ hnd, ?_⟩
          by_cases hlen : (mapDelete room p.userId).length = 0
          · have hde : mapDelete room p.userId = [] := List.length_eq_zero.mp hlen
            have hrm : removeUser A p.userId = [] := by rw [← hkeys2, hde]; rfl
            refine Or.inl ⟨hrm, ?_⟩
            show mapGet (if (mapDelete room p.userId).length = 0 then
              mapDelete st.callRooms p.meetingId else _) p.meetingId = none
            rw [if_pos hlen, mapGet_mapDelete, if_pos rfl]
          · have hrm_ne : removeUser A p.userId ≠ [] := by
              intro hq
              apply hlen
              have h2 : (mapDelete room p.userId).map Prod.fst = [] := by rw [hkeys2, hq]
              rw [List.map_eq_nil_iff.mp h2]
              rfl
            refine Or.inr ⟨hrm_ne, mapDelete room p.userId, ?_, hkeys2⟩
            show mapGet (if (mapDelete room p.userId).length = 0 then
              mapDelete st.callRooms p.meetingId else mapSet st.callRooms p.meetingId _) p.meetingId = _
            rw [if_neg hlen, mapGet_mapSet, if_pos rfl]

theorem C4_run (max : Nat) (m : String) (hm : m ≠ "") (hmax : 1 ≤ max) :
    ∀ es : List Event, (∀ e ∈ es, onRoomJL m e = true) →
      ∀ st A, C4Inv st m A →
        C4Inv (es.foldl (step max) st) m (es.foldl (activeStep max) A) := by
  intro es
  induction es with
  | nil => intro _ st A h; exact h
  | cons e es ih =>
    intro hall st A h
    exact ih (fun e2 he2 => hall e2 (List.mem_cons_of_mem _ he2)) _ _
      (C4_step max m hm hmax e (hall e (List.mem_cons_self _ _)) st A h)

/-- C4: after every sequence of join and leave events on one room, the room's
member list equals exactly the distinct userIds that have successfully joined
and not since left (so its size is their number), and the room is present in
the registry if and only if that set is nonempty: created lazily on the first
successful join, deleted in the same operation that removes the last member,
and never left behind empty by a failed join (configured maximum at least 1). -/
theorem C4_main (max : Nat) (m : String) (es : List Event)
    (hmax : 1 ≤ max) (hm : m ≠ "") (hes : ∀ e ∈ es, onRoomJL m e = true) :
    (activeUsers max es).Nodup
    ∧ roomUsers (run max es) m = activeUsers max es
    ∧ ((mapGet (run max es).callRooms m).getD []).length = (activeUsers max es).length
    ∧ (mapHas (run max es).callRooms m = true ↔ activeUsers max es ≠ []) := by
  have h := C4_run max m hm hmax es hes ServerState.initial []
    ⟨List.nodup_nil, Or.inl ⟨rfl, rfl⟩⟩
  obtain ⟨hnd, hcase⟩ := h
  simp only [run, activeUsers]
  rcases hcase with ⟨hA, hnone⟩ | ⟨hAne, room, hsome, hkeys⟩
  · refine ⟨hnd, ?_, ?_, ?_⟩
    · rw [roomUsers, hnone, hA]; rfl
    · rw [hnone, hA]; rfl
    · rw [mapHas, hnone, hA]
      simp
  · refine ⟨hnd, ?_, ?_, ?_⟩
    · rw [roomUsers, hsome, Option.getD_some, hkeys]
    · rw [hsome, Option.getD_some, ← hkeys, List.length_map]
    · rw [mapHas, hsome]
      simp [hAne]

theorem C4_witness :
    (activeUsers 10 [ .join "t1" "S1" ⟨"m", "a", "pa", "Ann"⟩,
                      .join "t2" "S2" ⟨"m", "b", "pb", "Bob"⟩,
                      .leave "t3" "S1" ⟨"m", "a"⟩ ]).Nodup
    ∧ roomUsers (run 10 [ .join "t1" "S1" ⟨"m", "a", "pa", "Ann"⟩,
                          .join "t2" "S2" ⟨"m", "b", "pb", "Bob"⟩,
                          .leave "t3" "S1" ⟨"m", "a"⟩ ]) "m"
        = activeUsers 10 [ .join "t1" "S1" ⟨"m", "a", "pa", "Ann"⟩,
                           .join "t2" "S2" ⟨"m", "b", "pb", "Bob"⟩,
                           .leave "t3" "S1" ⟨"m", "a"⟩ ]
    ∧ ((mapGet (run 10 [ .join "t1" "S1" ⟨"m", "a", "pa", "Ann"⟩,
                         .join "t2" "S2" ⟨"m", "b", "pb", "Bob"⟩,
                         .leave "t3" "S1" ⟨"m", "a"⟩ ]).callRooms "m").getD []).length
        = (activeUsers 10 [ .join "t1" "S1" ⟨"m", "a", "pa", "Ann"⟩,
                            .join "t2" "S2" ⟨"m", "b", "pb", "Bob"⟩,
                            .leave "t3" "S1" ⟨"m", "a"⟩ ]).length
    ∧ (mapHas (run 10 [ .join "t1" "S1" ⟨"m", "a", "pa", "Ann"⟩,
                        .join "t2" "S2" ⟨"m", "b", "pb", "Bob"⟩,
                        .leave "t3" "S1" ⟨"m", "a"⟩ ]).callRooms "m" = true
        ↔ activeUsers 10 [ .join "t1" "S1" ⟨"m", "a", "pa", "Ann"⟩,
                           .join "t2" "S2" ⟨"m", "b", "pb", "Bob"⟩,
                           .leave "t3" "S1" ⟨"m", "a"⟩ ] ≠ []) :=
  C4_main 10 "m"
    [ .join "t1" "S1" ⟨"m", "a", "pa", "Ann"⟩,
      .join "t2" "S2" ⟨"m", "b", "pb", "Bob"⟩,
      .leave "t3" "S1" ⟨"m", "a"⟩ ]
    (by decide) (by decide) (by decide)

theorem C2_join_preserves (max : Nat) (now sid : String) (p : JoinCallPayload)
    (st : ServerState)
    (hinv : socketIndexConsistent st = true)
    (hok : sameConnection st sid p.meetingId p.userId = true) :
    socketIndexConsistent (handleJoin max now sid p st).1 = true := by
  have hinv2 := socketIndexConsistent_iff.mp hinv
  by_cases hval : p.meetingId = "" ∨ p.userId = "" ∨ p.peerId = ""
  · rw [handleJoin_invalid max now sid p st hval]
    exact hinv
  · cases hro : mapGet st.callRooms p.meetingId with
    | none =>
      by_cases hfull : max ≤ 0
      · rw [handleJoin_full_noroom max now sid p st hval hro hfull]
        apply socketIndexConsistent_iff.mpr
        intro e he
        obtain ⟨r0, p0, h1, h2, h3⟩ := indexEntryLive_elim (hinv2 e he)
        refine indexEntryLive_intro ?_ h2 h3
        show mapGet (mapSet st.callRooms p.meetingId []) e.2.meetingId = some r0
        rw [mapGet_mapSet]
        by_cases hm2 : p.meetingId = e.2.meetingId
        · rw [← hm2] at h1
          rw [h1] at hro
          exact absurd hro (by simp)
        · rw [if_neg hm2]
          exact h1
      · rw [handleJoin_new_noroom_state max now sid p st hval hro (by omega)]
        apply socketIndexConsistent_iff.mpr
        intro e he
        rcases mem_mapSet he with heq | ⟨hmem, hne⟩
        · subst heq
          have hg1 : mapGet (mapSet (mapSet st.callRooms p.meetingId []) p.meetingId
              (mapSet [] p.userId (newParticipant now sid p))) p.meetingId
              = some (mapSet [] p.userId (newParticipant now sid p)) := by
            rw [mapGet_mapSet, if_pos rfl]
          have hg2 : mapGet (mapSet [] p.userId (newParticipant now sid p)) p.userId
              = some (newParticipant now sid p) := by
            rw [mapSet_nil, mapGet_cons, if_pos rfl]
          exact indexEntryLive_intro hg1 hg2 rfl
        · obtain ⟨r0, p0, h1, h2, h3⟩ := indexEntryLive_elim (hinv2 e hmem)
          refine indexEntryLive_intro ?_ h2 h3
          show mapGet (mapSet (mapSet st.callRooms p.meetingId []) p.meetingId
            (mapSet [] p.userId (newParticipant now sid p))) e.2.meetingId = some r0
          by_cases hm2 : p.meetingId = e.2.meetingId
          · rw [← hm2] at h1
            rw [h1] at hro
            exact absurd hro (by simp)
          · rw [mapGet_mapSet, if_neg hm2, mapGet_mapSet, if_neg hm2]
            exact h1
    | some room =>
      by_cases hfull : max ≤ room.length
      · rw [handleJoin_full max now sid p st room hval hro hfull]
        exact hinv
      · cases hex : mapGet room p.userId with
        | some ex =>
          have hsid : ex.socketId = sid := sameConnection_elim hro hex hok
          rw [handleJoin_reconnect_state max now sid p st room ex hval hro hex (by omega)]
          apply socketIndexConsistent_iff.mpr
          intro e he
          rcases mem_mapSet he with heq | ⟨hmem, hne⟩
          · subst heq
            have hg1 : mapGet (mapSet st.callRooms p.meetingId
                (mapSet room p.userId { ex with socketId := sid, peerId := p.peerId })) p.meetingId
                = some (mapSet room p.userId { ex with socketId := sid, peerId := p.peerId }) := by
              rw [mapGet_mapSet, if_pos rfl]
            have hg2 : mapGet (mapSet room p.userId { ex with socketId := sid, peerId := p.peerId })
                p.userId = some { ex with socketId := sid, peerId := p.peerId } := by
              rw [mapGet_mapSet, if_pos rfl]
            exact indexEntryLive_intro hg1 hg2 rfl
          · obtain ⟨r0, p0, h1, h2, h3⟩ := indexEntryLive_elim (hinv2 e hmem)
            by_cases hm2 : p.meetingId = e.2.meetingId
            · rw [← hm2] at h1
              rw [h1] at hro
              have hr0 : room = r0 := (Option.some.inj hro).symm
              subst hr0
              by_cases hu2 : p.userId = e.2.userId
              · rw [← hu2] at h2
                rw [h2] at hex
                have hp0 : p0 = ex := Option.some.inj hex
                subst hp0
                rw [h3] at hsid
                exact absurd hsid hne
              · have hg1 : mapGet (mapSet st.callRooms p.meetingId
                    (mapSet room p.userId { ex with socketId := sid, peerId := p.peerId }))
                    e.2.meetingId
                    = some (mapSet room p.userId { ex with socketId := sid, peerId := p.peerId }) := by
                  rw [← hm2, mapGet_mapSet, if_pos rfl]
                have hg2 : mapGet (mapSet room p.userId
                    { ex with socketId := sid, peerId := p.peerId }) e.2.userId = some p0 := by
                  rw [mapGet_mapSet, if_neg hu2]
                  exact h2
                exact indexEntryLive_intro hg1 hg2 h3
            · refine indexEntryLive_intro ?_ h2 h3
              show mapGet (mapSet st.callRooms p.meetingId _) e.2.meetingId = some r0
              rw [mapGet_mapSet, if_neg hm2]
              exact h1
        | none =>
          rw [handleJoin_new_state max now sid p st room hval hro hex (by omega)]
          apply socketIndexConsistent_iff.mpr
          intro e he
          rcases mem_mapSet he with heq | ⟨hmem, hne⟩
          · subst heq
            have hg1 : mapGet (mapSet st.callRooms p.meetingId
                (mapSet room p.userId (newParticipant now sid p))) p.meetingId
                = some (mapSet room p.userId (newParticipant now sid p)) := by
              rw [mapGet_mapSet, if_pos rfl]
            have hg2 : mapGet (mapSet room p.userId (newParticipant now sid p)) p.userId
                = some (newParticipant now sid p) := by
              rw [mapGet_mapSet, if_pos rfl]
            exact indexEntryLive_intro hg1 hg2 rfl
          · obtain ⟨r0, p0, h1, h2, h3⟩ := indexEntryLive_elim (hinv2 e hmem)
            by_cases hm2 : p.meetingId = e.2.meetingId
            · rw [← hm2] at h1
              rw [h1] at hro
              have hr0 : room = r0 := (Option.some.inj hro).symm
              subst hr0
              by_cases hu2 : p.userId = e.2.userId
              · rw [← hu2] at h2
                rw [h2] at hex
                exact absurd hex (by simp)
              · have hg1 : mapGet (mapSet st.callRooms p.meetingId
                    (mapSet room p.userId (newParticipant now sid p))) e.2.meetingId
                    = some (mapSet room p.userId (newParticipant now sid p)) := by
                  rw [← hm2, mapGet_mapSet, if_pos rfl]
                have hg2 : mapGet (mapSet room p.userId (newParticipant now sid p))
                    e.2.userId = some p0 := by
                  rw [mapGet_mapSet, if_neg hu2]
                  exact h2
                exact indexEntryLive_intro hg1 hg2 h3
            · refine indexEntryLive_intro ?_ h2 h3
              show mapGet (mapSet st.callRooms p.meetingId _) e.2.meetingId = some r0
              rw [mapGet_mapSet, if_neg hm2]
              exact h1

theorem C2_leave_preserves (now sid m u : String) (st : ServerState)
    (hinv : socketIndexConsistent st = true)
    (hok : sameConnection st sid m u = true) :
    socketIndexConsistent (handleUserLeave now sid m u st).1 = true := by
  have hinv2 := socketIndexConsistent_iff.mp hinv
  by_cases hval : m = "" ∨ u = ""
  · rw [handleUserLeave_invalid now sid m u st hval]
    exact hinv
  · cases hro : mapGet st.callRooms m with
    | none =>
      rw [handleUserLeave_noroom now sid m u st hval hro]
      exact hinv
    | some room =>
      cases hex : mapGet room u with
      | none =>
        rw [handleUserLeave_nouser now sid m u st room hval hro hex]
        exact hinv
      | some part =>
        have hsid : part.socketId = sid := sameConnection_elim hro hex hok
        rw [handleUserLeave_found now sid m u st room part hval hro hex]
        apply socketIndexConsistent_iff.mpr
        intro e he
        obtain ⟨hmem, hne⟩ := mem_mapDelete he
        obtain ⟨r0, p0, h1, h2, h3⟩ := indexEntryLive_elim (hinv2 e hmem)
        by_cases hm2 : m = e.2.meetingId
        · rw [← hm2] at h1
          rw [h1] at hro
          have hr0 : room = r0 := (Option.some.inj hro).symm
          subst hr0
          by_cases hu2 : u = e.2.userId
          · rw [← hu2] at h2
            rw [h2] at hex
            have hp0 : p0 = part := Option.some.inj hex
            subst hp0
            rw [h3] at hsid
            exact absurd hsid hne
          · have hget2 : mapGet (mapDelete room u) e.2.userId = some p0 := by
              rw [mapGet_mapDelete, if_neg hu2]
              exact h2
            have hlen : ¬ (mapDelete room u).length = 0 := by
              intro hq
              rw [List.length_eq_zero.mp hq] at hget2
              exact absurd hget2 (by simp [mapGet])
            refine indexEntryLive_intro ?_ hget2 h3
            show mapGet (if (mapDelete room u).length = 0 then mapDelete st.callRooms m
              else mapSet st.callRooms m (mapDelete room u)) e.2.meetingId = _
            rw [if_neg hlen, ← hm2, mapGet_mapSet, if_pos rfl]
        · refine indexEntryLive_intro ?_ h2 h3
          show mapGet (if (mapDelete room u).length = 0 then mapDelete st.callRooms m
            else mapSet st.callRooms m (mapDelete room u)) e.2.meetingId = some r0
          by_cases hlen : (mapDelete room u).length = 0
          · rw [if_pos hlen, mapGet_mapDelete, if_neg hm2]
            exact h1
          · rw [if_neg hlen, mapGet_mapSet, if_neg hm2]
            exact h1

theorem C2_disconnect_preserves (now sid : String) (st : ServerState)
    (hinv : socketIndexConsistent st = true) :
    socketIndexConsistent (handleDisconnect now sid st).1 = true := by
  cases hui : mapGet st.socketToUser sid with
  | none =>
    unfold handleDisconnect
    rw [hui]
    exact hinv
  | some ui =>
    have hmem : (sid, ui) ∈ st.socketToUser := mapGet_mem hui
    obtain ⟨r0, p0, h1, h2, h3⟩ :=
      indexEntryLive_elim (socketIndexConsistent_iff.mp hinv _ hmem)
    have h1b : mapGet st.callRooms ui.meetingId = some r0 := h1
    have h2b : mapGet r0 ui.userId = some p0 := h2
    have h3b : p0.socketId = sid := h3
    have hok : sameConnection st sid ui.meetingId ui.userId = true := by
      unfold sameConnection
      simp only [h1b, h2b]
      exact beq_iff_eq.mpr h3b
    have hred : handleDisconnect now sid st = handleUserLeave now sid ui.meetingId ui.userId st := by
      unfold handleDisconnect
      rw [hui]
    rw [hred]
    exact C2_leave_preserves now sid ui.meetingId ui.userId st hinv hok

theorem C2_step_preserves (max : Nat) (st : ServerState) (e : Event)
    (hinv : socketIndexConsistent st = true) (hok : eventOk st e = true) :
    socketIndexConsistent (step max st e) = true := by
  cases e with
  | join now sid p => exact C2_join_preserves max now sid p st hinv hok
  | leave now sid p => exact C2_leave_preserves now sid p.meetingId p.userId st hinv hok
  | disconnect now sid => exact C2_disconnect_preserves now sid st hinv

theorem C2_runAux (max : Nat) :
    ∀ (es : List Event) (st : ServerState), socketIndexConsistent st = true →
      traceOk max st es → socketIndexConsistent (es.foldl (step max) st) = true := by
  intro es
  induction es with
  | nil => intro st h _; exact h
  | cons e es ih =>
    intro st h htr
    exact ih _ (C2_step_preserves max st e h htr.1) htr.2

/-- C2 (amended): the connection-index invariant — every socketToUser entry
names an existing participant whose stored socket is that connection — holds
in every state reached by a trace in which each join or explicit leave that
touches an existing participant is issued on that participant's current
connection (disconnects are unrestricted).  Without that discipline the claim
fails, because a reconnection from a new connection leaves the old
connection's index entry stale. -/
theorem C2_main (max : Nat) (es : List Event)
    (hok : traceOk max ServerState.initial es) :
    socketIndexConsistent (run max es) = true := by
  simp only [run]
  exact C2_runAux max es ServerState.initial rfl hok

/-- C2: the claim fails on the code.  After user u joins room m on connection
S1 and rejoins on S2, the entry S1 -> (m,u) is stale (the participant's socket
is S2); when S1 then closes, the disconnect cleanup removes u entirely and the
room, leaving S2 -> (m,u) dangling: the index is nonempty while the room map
is empty. -/
theorem C2_counterexample :
    socketIndexConsistent (run 10
      [ .join "t1" "S1" ⟨"m", "u", "p1", "alice"⟩,
        .join "t2" "S2" ⟨"m", "u", "p2", "alice"⟩,
        .disconnect "t3" "S1" ]) = false
    ∧ (run 10
      [ .join "t1" "S1" ⟨"m", "u", "p1", "alice"⟩,
        .join "t2" "S2" ⟨"m", "u", "p2", "alice"⟩,
        .disconnect "t3" "S1" ]).socketToUser ≠ []
    ∧ mapGet (run 10
      [ .join "t1" "S1" ⟨"m", "u", "p1", "alice"⟩,
        .join "t2" "S2" ⟨"m", "u", "p2", "alice"⟩,
        .disconnect "t3" "S1" ]).callRooms "m" = none := by
  decide

theorem C2_witness :
    socketIndexConsistent (run 10
      [ .join "t1" "S1" ⟨"m", "u", "p1", "Ann"⟩,
        .leave "t2" "S1" ⟨"m", "u"⟩ ]) = true :=
  C2_main 10
    [ .join "t1" "S1" ⟨"m", "u", "p1", "Ann"⟩,
      .leave "t2" "S1" ⟨"m", "u"⟩ ]
    ⟨rfl, rfl, trivial⟩

end ClaimTheorems

end CallServer
